import Mathlib

/-!
Verification development for the `stuffpot` intercepting proxy (`main.go`).

The program is a goproxy-based MITM proxy.  We shallowly embed the pieces of
`main.go` that the specification talks about:

* the CONNECT-dispatch handler chain registered in `main` (goproxy consults
  the registered CONNECT handlers in registration order; each matching
  handler overwrites the pending action, so the last matching handler wins),
* the plaintext tunnel relay installed with `HijackConnect` for targets
  matching `^.*:80$` (lines 135-157),
* the request logger `HttpLogger` (`NewLogger`, `LogReq`),
* the `OnRequest().DoFunc` handler wiring logging into the forwarding path,
* the graceful listener wrapper (`stoppableListener.Accept`,
  `stoppableConn.Close`),
* the byte-level behaviour of `http.ReadRequest` / `Request.Write` used by
  the relay loop, restricted to the fragment exercised over a plaintext
  tunnel (bodyless messages without framing headers).

Strings from the Go program are modelled as lists of characters (`Str`), so
that all string manipulation is structurally recursive and every predicate
is decidable.  The file is organised as: all definitions first, then all
theorems.
-/

set_option linter.unusedVariables false

abbrev Str := List Char

/-- Coerce a Lean string literal into the character-list representation. -/
def strOf (s : String) : Str := s.toList

/-! ## Connection dispatch (main.go lines 122-135)

`main` registers two CONNECT handlers:

* `OnRequest(ReqHostMatches(regexp.MustCompile("^.*$"))).HandleConnectFunc`
  returning `goproxy.MitmConnect`, and then
* `OnRequest(ReqHostMatches(regexp.MustCompile("^.*:80$"))).HijackConnect`.

goproxy's `handleHttps` starts from `OkConnect` and folds over the handlers
in registration order, replacing the pending action whenever a handler's
conditions match, so the hijack handler (registered second) wins whenever
both regexes match.  In Go's regexp (RE2, no `s` flag) `.` does not match a
newline, so `^.*$` matches exactly the newline-free strings and `^.*:80$`
matches exactly the newline-free strings ending in `":80"`. -/

inductive ConnectAction where
  | okConnect
  | mitmConnect
  | hijackConnect
deriving DecidableEq

/-- Go regexp `^.*$` applied with `MatchString` to the request host. -/
def reqHostMatchesAny (host : Str) : Bool := !host.contains '\n'

/-- Go regexp `^.*:80$` applied with `MatchString` to the request host. -/
def reqHostMatchesPort80 (host : Str) : Bool :=
  (strOf ":80").isSuffixOf host && !host.contains '\n'

/-- The CONNECT action chosen by goproxy for a CONNECT target `host`, after
folding the two handlers `main` registers (lines 122-124 and 133-135) in
registration order over the initial `OkConnect` action. -/
def handleConnectChain (host : Str) : ConnectAction :=
  let todo := ConnectAction.okConnect
  let todo := if reqHostMatchesAny host then ConnectAction.mitmConnect else todo
  let todo := if reqHostMatchesPort80 host then ConnectAction.hijackConnect else todo
  todo

/-! ## Logger construction (main.go lines 24-42) -/

/-- The argument pair passed to `sql.Open` in `NewLogger`. -/
structure SqlOpenCall where
  driver : Str
  dsn : Str
deriving DecidableEq

/-- Result of `NewLogger`: which database gets opened and the schema
statement executed on it.  `NewLogger` calls
`sql.Open("sqlite3", "./log.db")`, never reading its `dbname` argument. -/
structure LoggerInit where
  openCall : SqlOpenCall
  schemaStmt : Str
deriving DecidableEq

/-- Embedding of `NewLogger` (main.go lines 24-42).  The body ignores
`dbname` and always opens `./log.db`. -/
def NewLogger (dbname : Str) : LoggerInit :=
  { openCall := { driver := strOf "sqlite3", dsn := strOf "./log.db" }
    schemaStmt := strOf "create table if not exists requests (id, from_ip, method, host, url, headers, created_at)" }

/-! ## The plaintext tunnel relay (main.go lines 135-157)

The `HijackConnect` handler:

```
defer func() {
    if e := recover(); e != nil {
        ctx.Logf("error connecting to remote: %v", e)
        client.Write([]byte("HTTP/1.1 500 Cannot reach remote\r\n\r\n"))
    }
    client.Close()
}()
clientBuf := ...
remote, err := net.Dial("tcp", req.URL.Host)
orPanic(err)
client.Write([]byte("HTTP/1.1 200 Ok\r\n\r\n"))
remoteBuf := ...
for {
    req, err := http.ReadRequest(clientBuf.Reader)
    orPanic(err)
    orPanic(req.Write(remoteBuf))
    orPanic(remoteBuf.Flush())
    resp, err := http.ReadResponse(remoteBuf.Reader, req)
    orPanic(err)
    orPanic(resp.Write(clientBuf.Writer))
    orPanic(clientBuf.Flush())
}
```

We model one session abstractly: the client side delivers a finite sequence
of successfully parsed requests (after which `http.ReadRequest` fails — a
clean EOF or a parse error — and `orPanic` panics); the upstream is an
oracle mapping each forwarded request to either a parsed response or a
read/parse failure.  The `for` loop has no `break` or `return`, so its only
exit is a panic, which the deferred function recovers: it logs, writes the
`HTTP/1.1 500 Cannot reach remote` status line to the client, and closes
the client connection.  Nothing in the handler ever closes `remote`. -/

/-- Observable I/O events of one iteration of the relay loop, with `ρ` the
type of parsed requests and `σ` the type of parsed responses. -/
inductive RelayEvent (ρ σ : Type) where
  | readReq (r : ρ)
  | writeReqUp (r : ρ)
  | flushUp
  | readResp (s : σ)
  | writeRespClient (s : σ)
  | flushClient
  | readReqErr
  | readRespErr
deriving DecidableEq

/-- The relay loop (main.go lines 148-157) run against a client that
delivers the parsed requests `reqs` in order and then fails the next read,
and an upstream oracle `u` (`u r = none` models a failed response
read/parse).  Returns the trace of I/O events; the trace always ends in the
failing step that raised the panic. -/
def relayLoop {ρ σ : Type} (u : ρ → Option σ) : List ρ → List (RelayEvent ρ σ)
  | [] => [RelayEvent.readReqErr]
  | r :: rest =>
    RelayEvent.readReq r :: RelayEvent.writeReqUp r :: RelayEvent.flushUp ::
      match u r with
      | none => [RelayEvent.readRespErr]
      | some s =>
        RelayEvent.readResp s :: RelayEvent.writeRespClient s ::
          RelayEvent.flushClient :: relayLoop u rest

/-- Observable outcome of one whole `HijackConnect` session. -/
structure HijackOutcome (ρ σ : Type) where
  /-- whether `net.Dial` to the target succeeded -/
  dialed : Bool
  /-- whether `HTTP/1.1 200 Ok` was written to the client -/
  wrote200 : Bool
  /-- the I/O events of the relay loop -/
  events : List (RelayEvent ρ σ)
  /-- whether the deferred recover wrote `HTTP/1.1 500 Cannot reach remote` -/
  wrote500 : Bool
  /-- whether `client.Close()` ran -/
  clientClosed : Bool
  /-- whether the upstream (`remote`) connection was closed by the handler -/
  remoteClosed : Bool
deriving DecidableEq

/-- Embedding of the whole `HijackConnect` handler (main.go lines 135-157).
`dialOk` is the outcome of `net.Dial`.  On dial failure the deferred
recover fires before the 200 reply: the client gets only the 500 status.
On dial success the 200 reply is written and the loop runs; since the loop
can only exit by panicking (every session input is finite, so the final
read fails), the deferred recover always fires, writes the 500 status line
to the client and closes the client connection.  `remote` is never closed
anywhere in the handler. -/
def hijackConnect {ρ σ : Type} (dialOk : Bool) (u : ρ → Option σ)
    (reqs : List ρ) : HijackOutcome ρ σ :=
  if dialOk then
    { dialed := true
      wrote200 := true
      events := relayLoop u reqs
      wrote500 := true
      clientClosed := true
      remoteClosed := false }
  else
    { dialed := false
      wrote200 := false
      events := []
      wrote500 := true
      clientClosed := true
      remoteClosed := false }

/-- The responses written back to the client, in order, as read off a relay
trace. -/
def respWritesOf {ρ σ : Type} (ev : List (RelayEvent ρ σ)) : List σ :=
  ev.filterMap fun e =>
    match e with
    | RelayEvent.writeRespClient s => some s
    | _ => none

/-- Number of client-request reads in a relay trace. -/
def readReqCount {ρ σ : Type} (ev : List (RelayEvent ρ σ)) : Nat :=
  ev.countP fun e =>
    match e with
    | RelayEvent.readReq _ => true
    | _ => false

/-- Number of client-side response flushes in a relay trace. -/
def flushClientCount {ρ σ : Type} (ev : List (RelayEvent ρ σ)) : Nat :=
  ev.countP fun e =>
    match e with
    | RelayEvent.flushClient => true
    | _ => false

/-- The six events of one successful loop iteration. -/
def relayBlock {ρ σ : Type} (uf : ρ → σ) (r : ρ) : List (RelayEvent ρ σ) :=
  [RelayEvent.readReq r, RelayEvent.writeReqUp r, RelayEvent.flushUp,
   RelayEvent.readResp (uf r), RelayEvent.writeRespClient (uf r),
   RelayEvent.flushClient]

/-! ## Request logging (main.go lines 20-68 and 125-132)

`LogReq` serializes the request headers by iterating over the
`http.Header` map (modelled as an association list carrying the map's
traversal order), lower-casing each name with `strings.ToLower`, producing
one `"name: value"` string per header occurrence, and joining the collected
lines with `strings.Join(headersCol, "\r\n")`.  It then runs
`db.Begin` / `tx.Prepare` / `stmt.Exec` / `tx.Commit`; an `Exec` error is
reported via `ctx.Logf` and the function returns without committing; a
`Commit` error is reported via `ctx.Logf` (note: the Go code prints the old
`err` variable — which is `nil` at that point — rather than `err3`).  The
`OnRequest().DoFunc` handler calls `LogReq` and then unconditionally
returns `(req, nil)`, so goproxy forwards the request through the
transport regardless of the logging outcome. -/

/-- Go `strings.ToLower`. -/
def strLower (s : Str) : Str := s.map Char.toLower

/-- Go `strings.Split` with a single-character separator. -/
def goSplit (c : Char) : Str → List Str
  | [] => [[]]
  | x :: xs =>
    let r := goSplit c xs
    if x = c then [] :: r
    else
      match r with
      | [] => [[x]]
      | y :: ys => (x :: y) :: ys

/-- Go `strings.Join`. -/
def joinSep (sep : Str) : List Str → Str
  | [] => []
  | [s] => s
  | s :: rest => s ++ sep ++ joinSep sep rest

/-- The `headersCol` slice built by the nested loop in `LogReq` (lines
45-52): iterate over the header map in traversal order, lower-case each
name, and append one `"name: value"` string per value, preserving the
order of the value slice of each name. -/
def headersCol (header : List (Str × List Str)) : List Str :=
  header.foldl
    (fun acc p =>
      p.2.foldl (fun acc2 h => acc2 ++ [strLower p.1 ++ strOf ": " ++ h]) acc)
    []

/-- The string stored in the `headers` column:
`strings.Join(headersCol, "\r\n")` (line 56). -/
def storedHeaders (header : List (Str × List Str)) : Str :=
  joinSep (strOf "\r\n") (headersCol header)

/-- An observed HTTP request, with the fields `LogReq` reads.  `header`
carries the `http.Header` map in its traversal order. -/
structure GoRequest where
  remoteAddr : Str
  method : Str
  host : Str
  url : Str
  header : List (Str × List Str)
deriving DecidableEq

/-- One committed row of the `requests` table (the columns `LogReq`
inserts). -/
structure Row where
  fromIp : Str
  method : Str
  host : Str
  url : Str
  headers : Str
deriving DecidableEq

/-- The row `LogReq` inserts: `strings.Split(req.RemoteAddr, ":")[0]`,
`req.Method`, `req.Host`, `req.URL.String()`, and the serialized headers
(line 56). -/
def mkRow (req : GoRequest) : Row :=
  { fromIp := (goSplit ':' req.remoteAddr).headD []
    method := req.method
    host := req.host
    url := req.url
    headers := storedHeaders req.header }

/-- Steps of the database transaction performed by `LogReq`. -/
inductive TxEvent where
  | txBegin
  | insertOk
  | insertFail
  | commitOk
  | commitFail
deriving DecidableEq

/-- Operator-log messages emitted by `LogReq` via `ctx.Logf`, carrying the
error value actually interpolated into the message.  The commit-failure
message interpolates the (nil) insert error `err`, not `err3`. -/
inductive OpLogEvent where
  | failedWrite (e : Nat)
  | failedCommit (e : Option Nat)
deriving DecidableEq

/-- Observable outcome of one `LogReq` call: the rows visible to future
readers after the call (only committed rows are visible), the transaction
steps taken, and the operator-log messages emitted.  `LogReq` always
returns normally — no branch panics. -/
structure LogOutcome where
  rows : List Row
  txTrace : List TxEvent
  oplog : List OpLogEvent
deriving DecidableEq

/-- Embedding of `HttpLogger.LogReq` (lines 44-68) acting on the committed
rows `rows`, with `insertErr` / `commitErr` the outcomes of `stmt.Exec`
and `tx.Commit`. -/
def LogReq (rows : List Row) (req : GoRequest)
    (insertErr commitErr : Option Nat) : LogOutcome :=
  match insertErr with
  | some e =>
    { rows := rows
      txTrace := [TxEvent.txBegin, TxEvent.insertFail]
      oplog := [OpLogEvent.failedWrite e] }
  | none =>
    match commitErr with
    | some _ =>
      { rows := rows
        txTrace := [TxEvent.txBegin, TxEvent.insertOk, TxEvent.commitFail]
        oplog := [OpLogEvent.failedCommit none] }
    | none =>
      { rows := rows ++ [mkRow req]
        txTrace := [TxEvent.txBegin, TxEvent.insertOk, TxEvent.commitOk]
        oplog := [] }

/-- Embedding of the `OnRequest().DoFunc` handler (lines 125-132): call
`LogReq`, then return `(req, nil)`; `τ` is the type of transport
responses. -/
def onRequestDo {τ : Type} (rows : List Row) (req : GoRequest)
    (insertErr commitErr : Option Nat) :
    LogOutcome × (GoRequest × Option τ) :=
  (LogReq rows req insertErr commitErr, (req, none))

/-- goproxy's handling of a `DoFunc` result: a `nil` response means the
request is forwarded through the round tripper (here `tr.DetailedRoundTrip`
via `ctx.RoundTripper`); a non-`nil` response short-circuits. -/
def proxyForward {τ : Type} (handlerRes : GoRequest × Option τ)
    (roundTrip : GoRequest → τ) : τ :=
  match handlerRes.2 with
  | some resp => resp
  | none => roundTrip handlerRes.1

/-- Serialization described by the claim's words for C7: each header
occurrence becomes one `"name: value"` line with the name lower-cased, and
the lines are newline-joined. -/
def claimHeadersSerialization (header : List (Str × List Str)) : Str :=
  joinSep (strOf "\n")
    (header.flatMap fun p => p.2.map fun v => strLower p.1 ++ strOf ": " ++ v)

/-! ## Graceful listener (main.go lines 70-96)

`stoppableListener.Accept` calls the wrapped `Accept`; on success it calls
`sl.Add(1)` on the embedded `sync.WaitGroup` and hands out a
`stoppableConn` sharing that WaitGroup.  `stoppableConn.Close` calls
`sc.wg.Done()` (a decrement by one) and then closes the wrapped
connection.  A shutdown would wait on the WaitGroup, which releases only
when the counter is zero. -/

/-- Events observed on a `stoppableListener`: a successful `Accept`
handing out the connection `id` (which runs `sl.Add(1)`) and a `Close` of
connection `id` (which runs `sc.wg.Done()`). -/
inductive ConnEvent where
  | accept (id : Nat)
  | close (id : Nat)
deriving DecidableEq

/-- The shared WaitGroup counter after a trace of events: each successful
`Accept` adds one, each `Close` subtracts one. -/
def wgCounter : List ConnEvent → Int
  | [] => 0
  | ConnEvent.accept _ :: tr => 1 + wgCounter tr
  | ConnEvent.close _ :: tr => -1 + wgCounter tr

/-- Run a connection trace, tracking which accepted connections are still
unclosed.  `seen` collects every id accepted so far (the listener hands
each accepted connection out exactly once and its `Close` runs at most
once).  Returns the accepted-but-unclosed ids, or `none` for traces the
wrapper cannot produce (closing a connection that is not open, or
re-accepting an id). -/
def runConnTrace (seen opens : List Nat) : List ConnEvent → Option (List Nat)
  | [] => some opens
  | ConnEvent.accept n :: tr =>
    if n ∈ seen then none
    else runConnTrace (n :: seen) (n :: opens) tr
  | ConnEvent.close n :: tr =>
    if n ∈ opens then runConnTrace seen (opens.erase n) tr
    else none

/-- A concrete request used by witnesses. -/
def sampleRequest : GoRequest :=
  { remoteAddr := strOf "10.0.0.1:54321"
    method := strOf "GET"
    host := strOf "example.com"
    url := strOf "/index.html"
    header := [(strOf "Accept", [strOf "*/*"])] }

/-! ## Wire-level request framing (net/http `ReadRequest` / `Request.Write`)

The relay loop forwards each message with `req.Write(remoteBuf)`, the
re-serialization of the request parsed by `http.ReadRequest` — not the raw
bytes the client sent.  We embed the documented behaviour of these two
library functions on the fragment a plaintext tunnel exercises: bodyless
messages without the framing headers `Content-Length`,
`Transfer-Encoding` or `Trailer`, whose request target round-trips through
`url.Parse` unchanged.  A message is modelled as its list of
CRLF-separated lines.

`ReadRequest` splits the request line at its first two spaces
(`strings.Cut`), requires a parseable `HTTP/x.y` version, reads header
lines until the blank line — splitting each at its first colon,
canonicalizing the name with `textproto.CanonicalMIMEHeaderKey`
(upper-case the first letter and every letter following a hyphen,
lower-case the rest) and trimming leading spaces/tabs of the value —
collects them into a name-keyed map of value slices, and finally moves the
`Host` header into `req.Host`, deleting it from the map.

`Request.Write` emits the request line with the version fixed to
`HTTP/1.1`, then a `Host:` line, then a `User-Agent:` line (the header's
first value if the header is present, else the default
`Go-http-client/1.1`, omitted when empty), then the remaining headers with
keys sorted, excluding `Host`, `User-Agent`, `Content-Length`,
`Transfer-Encoding` and `Trailer`, then the blank line. -/

/-- Go `strings.Cut` at a single-character separator: split around the
first occurrence, or `none` when the separator does not occur. -/
def cutChar (c : Char) : Str → Option (Str × Str)
  | [] => none
  | x :: xs =>
    if x = c then some ([], xs)
    else (cutChar c xs).map fun p => (x :: p.1, p.2)

/-- Trim leading spaces and tabs of a header value (textproto). -/
def trimLeftWS : Str → Str
  | [] => []
  | x :: xs => if x = ' ' ∨ x = '\t' then trimLeftWS xs else x :: xs

/-- Helper for `canonicalKey`: `up` says whether the next letter starts a
word (start of key, or right after a hyphen) and is upper-cased; all other
letters are lower-cased. -/
def canonicalKeyAux (up : Bool) : Str → Str
  | [] => []
  | c :: xs => (if up then c.toUpper else c.toLower) :: canonicalKeyAux (c = '-') xs

/-- `textproto.CanonicalMIMEHeaderKey`. -/
def canonicalKey (k : Str) : Str := canonicalKeyAux true k

/-- Append a value to a name-keyed header map (textproto's
`m[key] = append(m[key], value)` on an association list carrying the
traversal order: existing entry extended in place, fresh key appended). -/
def headerAdd (m : List (Str × List Str)) (k : Str) (v : Str) :
    List (Str × List Str) :=
  match m with
  | [] => [(k, [v])]
  | (k', vs) :: rest =>
    if k' = k then (k', vs ++ [v]) :: rest else (k', vs) :: headerAdd rest k v

/-- `Header.get`: the first value stored under a key. -/
def headerGetFirst (m : List (Str × List Str)) (k : Str) : Option Str :=
  match m with
  | [] => none
  | (k', vs) :: rest => if k' = k then some (vs.headD []) else headerGetFirst rest k

/-- Presence lookup `req.Header[key]`: the whole value slice. -/
def headerEntry (m : List (Str × List Str)) (k : Str) : Option (List Str) :=
  match m with
  | [] => none
  | (k', vs) :: rest => if k' = k then some vs else headerEntry rest k

/-- `Header.Del`: remove every entry stored under a key. -/
def headerDel (m : List (Str × List Str)) (k : Str) : List (Str × List Str) :=
  match m with
  | [] => []
  | (k', vs) :: rest =>
    if k' = k then headerDel rest k else (k', vs) :: headerDel rest k

/-- Parse one header line at its first colon; empty names and lines
without a colon are malformed. -/
def parseHeaderLine (line : Str) : Option (Str × Str) :=
  match cutChar ':' line with
  | none => none
  | some (rawK, rest) =>
    if rawK = [] then none else some (canonicalKey rawK, trimLeftWS rest)

/-- Read header lines into the name-keyed map until the blank line;
running out of input before the blank line, or a malformed line, is an
error. -/
def readHeaderBlock : List Str → List (Str × List Str) → Option (List (Str × List Str))
  | [], _ => none
  | line :: rest, m =>
    if line = [] then some m
    else
      match parseHeaderLine line with
      | none => none
      | some (k, v) => readHeaderBlock rest (headerAdd m k v)

/-- The canonical `Host` header name. -/
def hostKey : Str := strOf "Host"

/-- The canonical `User-Agent` header name. -/
def uaKey : Str := strOf "User-Agent"

/-- net/http's default user agent written by `Request.Write` when the
request has no `User-Agent` header. -/
def defaultUserAgent : Str := strOf "Go-http-client/1.1"

/-- net/http's `reqWriteExcludeHeader`: headers `Request.Write` handles
specially and excludes from the sorted header dump. -/
def reqWriteExclude : List Str :=
  [strOf "Host", strOf "User-Agent", strOf "Content-Length",
   strOf "Transfer-Encoding", strOf "Trailer"]

/-- A parsed HTTP request in the modelled fragment. -/
structure SimpleRequest where
  method : Str
  uri : Str
  proto : Str
  host : Str
  header : List (Str × List Str)
deriving DecidableEq

/-- The HTTP versions `ParseHTTPVersion` accepts in the modelled
fragment. -/
def protoOk (p : Str) : Bool :=
  decide (p = strOf "HTTP/1.0" ∨ p = strOf "HTTP/1.1")

/-- Embedding of `http.ReadRequest` on the CRLF-separated lines of one
message in the modelled fragment. -/
def readRequestLines (lines : List Str) : Option SimpleRequest :=
  match lines with
  | [] => none
  | l1 :: rest =>
    match cutChar ' ' l1 with
    | none => none
    | some (m, r1) =>
      match cutChar ' ' r1 with
      | none => none
      | some (u, proto) =>
        if protoOk proto then
          match readHeaderBlock rest [] with
          | none => none
          | some hm =>
            some { method := m
                   uri := u
                   proto := proto
                   host := (headerGetFirst hm hostKey).getD []
                   header := headerDel hm hostKey }
        else none

/-- The `User-Agent:` line(s) `Request.Write` emits: the header's first
value when present (omitted when that value is empty), else the default
user agent. -/
def uaLines (hm : List (Str × List Str)) : List Str :=
  match headerEntry hm uaKey with
  | none => [uaKey ++ strOf ": " ++ defaultUserAgent]
  | some vs =>
    if vs.headD [] = [] then [] else [uaKey ++ strOf ": " ++ vs.headD []]

/-- Go string comparison `<` (lexicographic). -/
def strLt : Str → Str → Bool
  | [], [] => false
  | [], _ :: _ => true
  | _ :: _, [] => false
  | a :: as, b :: bs =>
    if a.toNat < b.toNat then true
    else if b.toNat < a.toNat then false
    else strLt as bs

/-- Insert a header entry into a key-sorted list of entries. -/
def insertSorted (p : Str × List Str) : List (Str × List Str) → List (Str × List Str)
  | [] => [p]
  | q :: qs => if strLt q.1 p.1 then q :: insertSorted p qs else p :: q :: qs

/-- Sort header entries by key, as `Header.writeSubset` does before
writing. -/
def sortHeaders : List (Str × List Str) → List (Str × List Str)
  | [] => []
  | p :: ps => insertSorted p (sortHeaders ps)

/-- The header entries `Request.Write` dumps via `writeSubset`: everything
except the specially-handled keys. -/
def headerFilterForWrite (hm : List (Str × List Str)) : List (Str × List Str) :=
  hm.filter fun p => !(reqWriteExclude.contains p.1)

/-- The sorted `name: value` lines `Header.writeSubset` emits, one line
per value, values of a name in slice order. -/
def headerLinesOf (hm : List (Str × List Str)) : List Str :=
  (sortHeaders (headerFilterForWrite hm)).flatMap fun p =>
    p.2.map fun v => p.1 ++ strOf ": " ++ v

/-- Embedding of `Request.Write` in the modelled fragment: the request
line with the version fixed to `HTTP/1.1`, the `Host:` line, the
`User-Agent:` line, the sorted remaining headers, and the blank line. -/
def writeRequestLines (r : SimpleRequest) : List Str :=
  (r.method ++ strOf " " ++ r.uri ++ strOf " HTTP/1.1") ::
    (hostKey ++ strOf ": " ++ r.host) ::
    (uaLines r.header ++ headerLinesOf r.header ++ [[]])

/-- The lines the relay writes to the upstream side for one complete
client request (main.go lines 149-152): the `Request.Write`
re-serialization of the request parsed by `http.ReadRequest`. -/
def relayUpstreamLines (clientLines : List Str) : Option (List Str) :=
  (readRequestLines clientLines).map writeRequestLines

/-- The header map as it comes back from parsing a written request: the
`User-Agent` entry that `Request.Write` materialised, followed by the
sorted dumped entries. -/
def normalizedHeader (hm : List (Str × List Str)) : List (Str × List Str) :=
  (match headerEntry hm uaKey with
   | none => [(uaKey, [defaultUserAgent])]
   | some vs =>
     if vs.headD [] = [] then [] else [(uaKey, [vs.headD []])]) ++
    sortHeaders (headerFilterForWrite hm)

/-- What survives a serialize-then-parse round trip: method, target and
host unchanged, the version normalized to `HTTP/1.1`, and the header map
in its written (canonicalized) arrangement. -/
def normalizeRequest (r : SimpleRequest) : SimpleRequest :=
  { method := r.method
    uri := r.uri
    proto := strOf "HTTP/1.1"
    host := r.host
    header := normalizedHeader r.header }

/-- Wellformedness of one header entry in the modelled fragment: name
nonempty, colon-free and already canonical, value slice nonempty, values
without leading whitespace. -/
def WFGroup (p : Str × List Str) : Prop :=
  p.1 ≠ [] ∧ ':' ∉ p.1 ∧ canonicalKey p.1 = p.1 ∧ p.2 ≠ [] ∧
    ∀ v ∈ p.2, trimLeftWS v = v

instance (p : Str × List Str) : Decidable (WFGroup p) := by
  unfold WFGroup
  infer_instance

/-- Wellformedness of a parsed request in the modelled fragment: no spaces
in method and target, no leading whitespace on the host and the header
values, wellformed header entries with distinct names, and no `Host` or
framing headers in the map (bodyless message). -/
def WFRequest (r : SimpleRequest) : Prop :=
  ' ' ∉ r.method ∧ ' ' ∉ r.uri ∧ trimLeftWS r.host = r.host ∧
    (∀ p ∈ r.header, WFGroup p) ∧
    (r.header.map Prod.fst).Nodup ∧
    hostKey ∉ r.header.map Prod.fst ∧
    strOf "Content-Length" ∉ r.header.map Prod.fst ∧
    strOf "Transfer-Encoding" ∉ r.header.map Prod.fst ∧
    strOf "Trailer" ∉ r.header.map Prod.fst

instance (r : SimpleRequest) : Decidable (WFRequest r) := by
  unfold WFRequest
  infer_instance

/-! ## Theorems -/

/-- C1: for every inbound CONNECT request (whose parsed target host can
never contain a newline), a target ending in `:80` is routed to the
hijacking plaintext-relay handler and every other target is routed to the
MITM TLS-termination handler. -/
theorem connect_routing (host : Str) (hvalid : ¬ '\n' ∈ host) :
    handleConnectChain host =
      if (strOf ":80").isSuffixOf host then ConnectAction.hijackConnect
      else ConnectAction.mitmConnect := by
  have hc : host.contains '\n' = false := by
    simpa using hvalid
  unfold handleConnectChain reqHostMatchesAny reqHostMatchesPort80
  rw [hc]
  by_cases hs : (strOf ":80").isSuffixOf host
  · simp [hs]
  · simp [hs]

/-- Witness for C1 at the concrete hosts `example.com:80` (hijacked) and
`example.com:443` (MITM'd). -/
theorem connect_routing_witness :
    (¬ '\n' ∈ strOf "example.com:80") ∧
      handleConnectChain (strOf "example.com:80") = ConnectAction.hijackConnect ∧
      handleConnectChain (strOf "example.com:443") = ConnectAction.mitmConnect := by
  refine ⟨by decide, ?_, ?_⟩
  · have h := connect_routing (strOf "example.com:80") (by decide)
    rw [h]
    decide
  · have h := connect_routing (strOf "example.com:443") (by decide)
    rw [h]
    decide

/-- C10: `NewLogger` ignores its `dbname` argument entirely: every call
opens the same fixed sqlite database `./log.db`, so the resulting logger is
independent of the argument. -/
theorem newlogger_ignores_dbname (a b : Str) :
    NewLogger a = NewLogger b ∧ (NewLogger a).openCall.dsn = strOf "./log.db" := by
  exact ⟨rfl, rfl⟩

theorem relayLoop_total_eq {ρ σ : Type} (uf : ρ → σ) (reqs : List ρ) :
    relayLoop (fun r => some (uf r)) reqs =
      (reqs.map (relayBlock uf)).flatten ++ [RelayEvent.readReqErr] := by
  induction reqs with
  | nil => rfl
  | cons r rest ih =>
    simp [relayLoop, relayBlock, ih]

theorem relay_seq_aux {ρ σ : Type} (uf : ρ → σ) (reqs : List ρ) :
    ∀ pre (r' : ρ) post,
      relayLoop (fun r => some (uf r)) reqs = pre ++ RelayEvent.readReq r' :: post →
      readReqCount pre = flushClientCount pre := by
  induction reqs with
  | nil =>
    intro pre r' post h
    exfalso
    rcases pre with _ | ⟨e1, pre⟩
    · simp [relayLoop] at h
    · rcases pre with _ | ⟨e2, pre⟩ <;> simp [relayLoop] at h
  | cons r rest ih =>
    intro pre r' post h
    rcases pre with _ | ⟨e1, pre⟩
    · simp [readReqCount, flushClientCount]
    · rcases pre with _ | ⟨e2, pre⟩
      · exfalso; simp [relayLoop] at h
      · rcases pre with _ | ⟨e3, pre⟩
        · exfalso; simp [relayLoop] at h
        · rcases pre with _ | ⟨e4, pre⟩
          · exfalso; simp [relayLoop] at h
          · rcases pre with _ | ⟨e5, pre⟩
            · exfalso; simp [relayLoop] at h
            · rcases pre with _ | ⟨e6, pre⟩
              · exfalso; simp [relayLoop] at h
              · simp only [relayLoop, List.cons_append, List.cons.injEq] at h
                obtain ⟨h1, h2, h3, h4, h5, h6, hrest⟩ := h
                subst h1; subst h2; subst h3; subst h4; subst h5; subst h6
                have := ih pre r' post hrest
                simp only [readReqCount, flushClientCount, List.countP_cons] at this ⊢
                omega

/-- C2: on a single plaintext tunnel carrying the sequential client
requests `reqs`, all of which the upstream answers (`uf`), the relay's
request/response pairs are strictly sequential and matched 1:1 in
submission order: the responses written back to the client are exactly
`reqs.map uf` in order (so exactly `reqs.length` response writes occur, one
per request), and at every point where the relay reads a client request the
number of earlier request reads equals the number of earlier fully-flushed
client response writes — i.e. a later request is never read before the
previous response has been written and flushed back. -/
theorem relay_strict_sequencing {ρ σ : Type} (reqs : List ρ) (uf : ρ → σ) :
    respWritesOf (relayLoop (fun r => some (uf r)) reqs) = reqs.map uf ∧
      ∀ pre (r' : ρ) post,
        relayLoop (fun r => some (uf r)) reqs = pre ++ RelayEvent.readReq r' :: post →
        readReqCount pre = flushClientCount pre := by
  constructor
  · induction reqs with
    | nil => rfl
    | cons r rest ih => simp [relayLoop, respWritesOf] at ih ⊢; exact ih
  · exact relay_seq_aux uf reqs

/-- Witness for C2: a concrete two-request session over `Nat` messages with
upstream `(· + 1)`; the second request is read only after the first
response's flush. -/
theorem relay_strict_sequencing_witness :
    respWritesOf (relayLoop (fun r : Nat => some (r + 1)) [5, 6]) = [6, 7] ∧
      readReqCount (relayBlock (fun r : Nat => r + 1) 5) =
        flushClientCount (relayBlock (fun r : Nat => r + 1) 5) := by
  have h := relay_strict_sequencing [5, 6] (fun r : Nat => r + 1)
  refine ⟨h.1, ?_⟩
  exact h.2 (relayBlock (fun r : Nat => r + 1) 5) 6
    [RelayEvent.writeReqUp 6, RelayEvent.flushUp, RelayEvent.readResp 7,
     RelayEvent.writeRespClient 7, RelayEvent.flushClient, RelayEvent.readReqErr]
    (by decide)

/-- C3 counterexample: the claim says the client receives an explicit
failure status only when the error occurs before the tunnel is established.
But in the session below the dial succeeds, the tunnel is established
(`wrote200 = true`), one request/response pair is exchanged, and the
subsequent clean EOF panics into the deferred recover, which still writes
the `HTTP/1.1 500 Cannot reach remote` status line (`wrote500 = true`). -/
theorem relay_error_status_counterexample :
    (hijackConnect true (fun _ : Nat => some (0 : Nat)) [1]).wrote200 = true ∧
      (hijackConnect true (fun _ : Nat => some (0 : Nat)) [1]).wrote500 = true ∧
      respWritesOf (hijackConnect true (fun _ : Nat => some (0 : Nat)) [1]).events = [0] := by
  refine ⟨rfl, rfl, by decide⟩

/-- C3 amended: whatever happens — dial failure before the tunnel is
established, a mid-session read/write/parse failure, or a clean EOF — the
deferred recover writes the explicit `HTTP/1.1 500 Cannot reach remote`
failure status to the client and then closes the client connection; the 200
tunnel-established reply is written exactly when the dial succeeded. -/
theorem relay_error_status_amended {ρ σ : Type} (dialOk : Bool)
    (u : ρ → Option σ) (reqs : List ρ) :
    (hijackConnect dialOk u reqs).wrote500 = true ∧
      (hijackConnect dialOk u reqs).clientClosed = true ∧
      (hijackConnect dialOk u reqs).wrote200 = dialOk := by
  cases dialOk <;> exact ⟨rfl, rfl, rfl⟩

theorem relayLoop_ne_nil {ρ σ : Type} (u : ρ → Option σ) (reqs : List ρ) :
    relayLoop u reqs ≠ [] := by
  cases reqs with
  | nil => simp [relayLoop]
  | cons r rest =>
    cases hu : u r <;> simp [relayLoop, hu]

theorem relayLoop_ends_in_error {ρ σ : Type} (u : ρ → Option σ) (reqs : List ρ) :
    (relayLoop u reqs).getLast? = some RelayEvent.readReqErr ∨
      (relayLoop u reqs).getLast? = some RelayEvent.readRespErr := by
  induction reqs with
  | nil => left; rfl
  | cons r rest ih =>
    cases hu : u r with
    | none => right; simp [relayLoop, hu]
    | some s =>
      have hsplit : relayLoop u (r :: rest) =
          [RelayEvent.readReq r, RelayEvent.writeReqUp r, RelayEvent.flushUp,
           RelayEvent.readResp s, RelayEvent.writeRespClient s,
           RelayEvent.flushClient] ++ relayLoop u rest := by
        simp [relayLoop, hu]
      rw [hsplit, List.getLast?_append_of_ne_nil _ (relayLoop_ne_nil u rest)]
      exact ih

/-- C4 counterexample: the claim says a relay failure closes both ends of
the tunnel.  In the session below the dial succeeds and the very first
client read fails (immediate EOF), aborting the relay — yet only the
client-side connection is closed; nothing in the handler ever closes the
upstream (`remote`) connection. -/
theorem relay_remote_unclosed_counterexample :
    (hijackConnect true (fun _ : Nat => some (0 : Nat)) []).clientClosed = true ∧
      (hijackConnect true (fun _ : Nat => some (0 : Nat)) []).remoteClosed = false := by
  exact ⟨rfl, rfl⟩

/-- C4 amended: when any read/write/parse step of the relay loop fails
(including clean EOF) the relay terminates — the event trace of an
established session always ends in the failing read step — and the handler
closes the client-side connection, but it never closes the upstream
(`remote`) connection. -/
theorem relay_teardown_amended {ρ σ : Type} (u : ρ → Option σ) (reqs : List ρ) :
    (hijackConnect true u reqs).clientClosed = true ∧
      (hijackConnect true u reqs).remoteClosed = false ∧
      ((hijackConnect true u reqs).events.getLast? = some RelayEvent.readReqErr ∨
        (hijackConnect true u reqs).events.getLast? = some RelayEvent.readRespErr) := by
  exact ⟨rfl, rfl, relayLoop_ends_in_error u reqs⟩

theorem foldl_append_map {α β : Type} (f : α → β) :
    ∀ (vs : List α) (acc : List β),
      vs.foldl (fun a h => a ++ [f h]) acc = acc ++ vs.map f := by
  intro vs
  induction vs with
  | nil => intro acc; simp
  | cons v vs ih => intro acc; simp [List.foldl_cons, ih]

theorem headersCol_eq_flatMap (header : List (Str × List Str)) :
    headersCol header =
      header.flatMap fun p => p.2.map fun v => strLower p.1 ++ strOf ": " ++ v := by
  suffices h : ∀ (hs : List (Str × List Str)) (acc : List Str),
      hs.foldl
        (fun acc p =>
          p.2.foldl (fun acc2 h => acc2 ++ [strLower p.1 ++ strOf ": " ++ h]) acc)
        acc =
        acc ++ hs.flatMap fun p => p.2.map fun v => strLower p.1 ++ strOf ": " ++ v by
    simpa [headersCol] using h header []
  intro hs
  induction hs with
  | nil => intro acc; simp
  | cons p ps ih =>
    intro acc
    rw [List.foldl_cons, foldl_append_map, ih, List.flatMap_cons, List.append_assoc]

/-- C5: every `LogReq` call performs its write inside a single transaction
that starts with a begin; if the insert or the commit fails, an operator
log message is emitted, the function returns normally, and the set of rows
visible to future readers is unchanged (in particular, after an insert
failure the transaction is never committed); only when both insert and
commit succeed does exactly the one new row become visible. -/
theorem logreq_transactional (rows : List Row) (req : GoRequest)
    (insertErr commitErr : Option Nat) :
    (LogReq rows req insertErr commitErr).txTrace.head? = some TxEvent.txBegin ∧
      (insertErr ≠ none ∨ commitErr ≠ none →
        (LogReq rows req insertErr commitErr).rows = rows ∧
          (LogReq rows req insertErr commitErr).oplog ≠ []) ∧
      (insertErr ≠ none →
        TxEvent.commitOk ∉ (LogReq rows req insertErr commitErr).txTrace ∧
          TxEvent.commitFail ∉ (LogReq rows req insertErr commitErr).txTrace) ∧
      (insertErr = none ∧ commitErr = none →
        (LogReq rows req insertErr commitErr).rows = rows ++ [mkRow req] ∧
          (LogReq rows req insertErr commitErr).txTrace =
            [TxEvent.txBegin, TxEvent.insertOk, TxEvent.commitOk]) := by
  cases insertErr <;> cases commitErr <;> simp [LogReq]

/-- Witness for C5 at a concrete request and a failing insert: no row
becomes visible, the failure is reported, and no commit happens. -/
theorem logreq_transactional_witness :
    (LogReq [] sampleRequest (some 7) none).rows = [] ∧
      (LogReq [] sampleRequest (some 7) none).oplog ≠ [] ∧
      TxEvent.commitOk ∉ (LogReq [] sampleRequest (some 7) none).txTrace := by
  have h := logreq_transactional [] sampleRequest (some 7) none
  exact ⟨(h.2.1 (Or.inl (by simp))).1, (h.2.1 (Or.inl (by simp))).2,
    (h.2.2.1 (by simp)).1⟩

/-- C6: a logging failure never aborts or blocks the in-flight proxied
request: the `DoFunc` handler returns `(req, nil)` whatever the insert and
commit outcomes are, so goproxy forwards the very same request through the
upstream transport and the proxied round trip completes with the
transport's result. -/
theorem logging_failure_nonblocking {τ : Type} (rows : List Row)
    (req : GoRequest) (insertErr commitErr : Option Nat)
    (roundTrip : GoRequest → τ) :
    (onRequestDo (τ := τ) rows req insertErr commitErr).2 = (req, none) ∧
      proxyForward (onRequestDo (τ := τ) rows req insertErr commitErr).2
          roundTrip =
        roundTrip req := by
  exact ⟨rfl, rfl⟩

/-- C7 counterexample: the claim says the stored headers column equals the
newline-joined serialization of the lower-cased header lines.  For the
header map `{A: [1, 2]}` (a single name, so traversal order is immaterial)
the code stores `"a: 1\r\na: 2"` — the lines are joined with CRLF, not
with a newline — which differs from the claimed `"a: 1\na: 2"`. -/
theorem headers_serialization_counterexample :
    storedHeaders [(strOf "A", [strOf "1", strOf "2"])] ≠
        claimHeadersSerialization [(strOf "A", [strOf "1", strOf "2"])] ∧
      storedHeaders [(strOf "A", [strOf "1", strOf "2"])] = strOf "a: 1\r\na: 2" := by
  exact ⟨by decide, by decide⟩

/-- C7 amended: for every request reaching the logging step, the headers
column stored by `LogReq` equals the serialization in which each header
occurrence becomes one `"name: value"` line with the name lower-cased,
the multiplicity and relative order of values within each header name are
preserved (cross-name order follows map traversal order), and the lines
are joined with CRLF (`"\r\n"`) rather than with a bare newline. -/
theorem headers_serialization_amended (header : List (Str × List Str)) :
    storedHeaders header =
      joinSep (strOf "\r\n")
        (header.flatMap fun p => p.2.map fun v => strLower p.1 ++ strOf ": " ++ v) := by
  unfold storedHeaders
  rw [headersCol_eq_flatMap]

theorem wgCounter_append (l1 l2 : List ConnEvent) :
    wgCounter (l1 ++ l2) = wgCounter l1 + wgCounter l2 := by
  induction l1 with
  | nil => simp [wgCounter]
  | cons e tr ih =>
    cases e <;> simp [wgCounter, ih] <;> ring

theorem runConnTrace_counter (tr : List ConnEvent) :
    ∀ (seen opens final : List Nat),
      runConnTrace seen opens tr = some final →
      wgCounter tr + opens.length = final.length := by
  induction tr with
  | nil =>
    intro seen opens final h
    simp [runConnTrace] at h
    simp [wgCounter, h]
  | cons e tr ih =>
    intro seen opens final h
    cases e with
    | accept n =>
      simp only [runConnTrace] at h
      by_cases hn : n ∈ seen
      · simp [hn] at h
      · simp only [hn, if_false] at h
        have := ih (n :: seen) (n :: opens) final h
        simp only [List.length_cons, wgCounter] at this ⊢
        push_cast at this ⊢
        omega
    | close n =>
      simp only [runConnTrace] at h
      by_cases hn : n ∈ opens
      · simp only [hn, if_true] at h
        have := ih seen (opens.erase n) final h
        have hlen : (opens.erase n).length = opens.length - 1 :=
          List.length_erase_of_mem hn
        have hpos : 1 ≤ opens.length := List.length_pos_of_mem hn
        simp only [wgCounter] at this ⊢
        omega
      · simp [hn] at h

/-- C9: for the graceful-listener wrapper, every successful `Accept`
increments the shared in-flight counter by one and every `Close` of an
accepted connection decrements it by one; consequently, on any trace the
wrapper can produce, the counter equals the number of
accepted-but-unclosed connections, so a shutdown waiting for the counter
to reach zero cannot complete while any accepted connection remains
unclosed. -/
theorem listener_counter_invariant (tr : List ConnEvent) (opens : List Nat)
    (h : runConnTrace [] [] tr = some opens) :
    (∀ n, wgCounter (tr ++ [ConnEvent.accept n]) = wgCounter tr + 1) ∧
      (∀ n, wgCounter (tr ++ [ConnEvent.close n]) = wgCounter tr - 1) ∧
      wgCounter tr = opens.length ∧
      (opens ≠ [] → wgCounter tr ≠ 0) := by
  have hc : wgCounter tr = opens.length := by
    have := runConnTrace_counter tr [] [] opens h
    simpa using this
  refine ⟨?_, ?_, hc, ?_⟩
  · intro n
    rw [wgCounter_append]
    simp [wgCounter]
  · intro n
    rw [wgCounter_append]
    simp [wgCounter]
    ring
  · intro hne
    rw [hc]
    have : 0 < opens.length := List.length_pos.mpr hne
    omega

/-- Witness for C9: the trace accept 0, accept 1, close 0 leaves
connection 1 unclosed and the counter at 1, so a shutdown waiting for zero
cannot complete. -/
theorem listener_counter_invariant_witness :
    runConnTrace [] [] [ConnEvent.accept 0, ConnEvent.accept 1, ConnEvent.close 0] =
        some [1] ∧
      wgCounter [ConnEvent.accept 0, ConnEvent.accept 1, ConnEvent.close 0] = 1 ∧
      wgCounter [ConnEvent.accept 0, ConnEvent.accept 1, ConnEvent.close 0] ≠ 0 := by
  have h := listener_counter_invariant
    [ConnEvent.accept 0, ConnEvent.accept 1, ConnEvent.close 0] [1] (by decide)
  refine ⟨by decide, ?_, h.2.2.2 (by decide)⟩
  rw [h.2.2.1]
  decide

theorem cutChar_append_cons (c : Char) (a b : Str) (h : c ∉ a) :
    cutChar c (a ++ c :: b) = some (a, b) := by
  induction a with
  | nil => simp [cutChar]
  | cons x xs ih =>
    have hx : ¬ (x = c) := fun he => h (he ▸ List.mem_cons_self x xs)
    have hxs : c ∉ xs := fun hmm => h (List.mem_cons_of_mem x hmm)
    simp [cutChar, hx, ih hxs]

theorem parseHeaderLine_mk (k v : Str) (hk : k ≠ []) (hkc : ':' ∉ k)
    (hcan : canonicalKey k = k) (hv : trimLeftWS v = v) :
    parseHeaderLine (k ++ strOf ": " ++ v) = some (k, v) := by
  have hcolon : strOf ": " = ':' :: [' '] := rfl
  have hshape : k ++ strOf ": " ++ v = k ++ ':' :: (' ' :: v) := by
    rw [hcolon, List.append_assoc]
    simp
  rw [hshape]
  unfold parseHeaderLine
  rw [cutChar_append_cons ':' k (' ' :: v) hkc]
  simp [hk, hcan, trimLeftWS, hv]

theorem headerAdd_fresh (m : List (Str × List Str)) (k : Str) (v : Str)
    (h : k ∉ m.map Prod.fst) : headerAdd m k v = m ++ [(k, [v])] := by
  induction m with
  | nil => rfl
  | cons q m ih =>
    obtain ⟨k', vs⟩ := q
    simp only [List.map_cons, List.mem_cons] at h
    push_neg at h
    have h1 : ¬ (k' = k) := fun he => h.1 he.symm
    simp [headerAdd, h1, ih h.2]

theorem headerAdd_last (m : List (Str × List Str)) (k : Str) (vs : List Str)
    (v : Str) (h : k ∉ m.map Prod.fst) :
    headerAdd (m ++ [(k, vs)]) k v = m ++ [(k, vs ++ [v])] := by
  induction m with
  | nil => simp [headerAdd]
  | cons q m ih =>
    obtain ⟨k', vs'⟩ := q
    simp only [List.map_cons, List.mem_cons] at h
    push_neg at h
    have h1 : ¬ (k' = k) := fun he => h.1 he.symm
    simp [headerAdd, h1, ih h.2]

theorem headerDel_not_mem (m : List (Str × List Str)) (k : Str)
    (h : k ∉ m.map Prod.fst) : headerDel m k = m := by
  induction m with
  | nil => rfl
  | cons q m ih =>
    obtain ⟨k', vs'⟩ := q
    simp only [List.map_cons, List.mem_cons] at h
    push_neg at h
    have h1 : ¬ (k' = k) := fun he => h.1 he.symm
    simp [headerDel, h1, ih h.2]

theorem headerEntry_mem (m : List (Str × List Str)) (k : Str) (vs : List Str)
    (h : headerEntry m k = some vs) : (k, vs) ∈ m := by
  induction m with
  | nil => simp [headerEntry] at h
  | cons q m ih =>
    obtain ⟨k', vs'⟩ := q
    by_cases he : k' = k
    · subst he
      simp [headerEntry] at h
      subst h
      exact List.mem_cons_self _ _
    · simp [headerEntry, he] at h
      exact List.mem_cons_of_mem _ (ih h)

theorem readHeaderBlock_header_line (k v : Str) (rest : List Str)
    (m : List (Str × List Str)) (hk : k ≠ []) (hkc : ':' ∉ k)
    (hcan : canonicalKey k = k) (hv : trimLeftWS v = v) :
    readHeaderBlock ((k ++ strOf ": " ++ v) :: rest) m =
      readHeaderBlock rest (headerAdd m k v) := by
  have hne : ¬ (k ++ strOf ": " ++ v = []) := by
    cases k with
    | nil => exact absurd rfl hk
    | cons c ct => simp
  simp only [readHeaderBlock]
  rw [if_neg hne, parseHeaderLine_mk k v hk hkc hcan hv]

theorem readHeaderBlock_group_aux (k : Str) (m : List (Str × List Str))
    (more : List Str) (hk : k ≠ []) (hkc : ':' ∉ k)
    (hcan : canonicalKey k = k) (hnotin : k ∉ m.map Prod.fst) :
    ∀ (vt done : List Str), (∀ v ∈ vt, trimLeftWS v = v) →
      readHeaderBlock ((vt.map fun v => k ++ strOf ": " ++ v) ++ more)
          (m ++ [(k, done)]) =
        readHeaderBlock more (m ++ [(k, done ++ vt)]) := by
  intro vt
  induction vt with
  | nil => intro done hv; simp
  | cons v vt ih =>
    intro done hv
    have hv0 : trimLeftWS v = v := hv v (List.mem_cons_self _ _)
    have hvt : ∀ w ∈ vt, trimLeftWS w = w :=
      fun w hw => hv w (List.mem_cons_of_mem _ hw)
    rw [List.map_cons, List.cons_append,
      readHeaderBlock_header_line k v _ _ hk hkc hcan hv0,
      headerAdd_last m k done v hnotin, ih (done ++ [v]) hvt]
    simp

theorem readHeaderBlock_group (k : Str) (vs : List Str) (more : List Str)
    (m : List (Str × List Str)) (hk : k ≠ []) (hkc : ':' ∉ k)
    (hcan : canonicalKey k = k) (hvs : vs ≠ [])
    (hv : ∀ v ∈ vs, trimLeftWS v = v) (hnotin : k ∉ m.map Prod.fst) :
    readHeaderBlock ((vs.map fun v => k ++ strOf ": " ++ v) ++ more) m =
      readHeaderBlock more (m ++ [(k, vs)]) := by
  cases vs with
  | nil => exact absurd rfl hvs
  | cons v0 vt =>
    have hv0 : trimLeftWS v0 = v0 := hv v0 (List.mem_cons_self _ _)
    have hvt : ∀ w ∈ vt, trimLeftWS w = w :=
      fun w hw => hv w (List.mem_cons_of_mem _ hw)
    rw [List.map_cons, List.cons_append,
      readHeaderBlock_header_line k v0 _ _ hk hkc hcan hv0,
      headerAdd_fresh m k v0 hnotin,
      readHeaderBlock_group_aux k m more hk hkc hcan hnotin vt [v0] hvt]
    simp

theorem readHeaderBlock_groups (gs : List (Str × List Str)) :
    ∀ m : List (Str × List Str),
      (∀ p ∈ gs, WFGroup p) →
      (∀ p ∈ gs, p.1 ∉ m.map Prod.fst) →
      (gs.map Prod.fst).Nodup →
      readHeaderBlock
          ((gs.flatMap fun p => p.2.map fun v => p.1 ++ strOf ": " ++ v) ++ [[]])
          m =
        some (m ++ gs) := by
  induction gs with
  | nil =>
    intro m _ _ _
    simp [readHeaderBlock]
  | cons g gs ih =>
    intro m hwf hdisj hnd
    obtain ⟨k, vs⟩ := g
    obtain ⟨hk, hkc, hcan, hvs, hv⟩ := hwf _ (List.mem_cons_self _ _)
    simp only [List.map_cons, List.nodup_cons] at hnd
    have hdisj' : ∀ p ∈ gs, p.1 ∉ (m ++ [(k, vs)]).map Prod.fst := by
      intro p hp hmem
      simp only [List.map_append, List.map_cons, List.map_nil,
        List.mem_append, List.mem_cons, List.not_mem_nil, or_false] at hmem
      rcases hmem with hmem | hmem
      · exact hdisj p (List.mem_cons_of_mem _ hp) hmem
      · exact hnd.1 (hmem ▸ List.mem_map_of_mem Prod.fst hp)
    rw [List.flatMap_cons, List.append_assoc,
      readHeaderBlock_group k vs _ m hk hkc hcan hvs hv
        (hdisj _ (List.mem_cons_self _ _)),
      ih (m ++ [(k, vs)]) (fun p hp => hwf p (List.mem_cons_of_mem _ hp))
        hdisj' hnd.2]
    simp

theorem insertSorted_perm (p : Str × List Str) (l : List (Str × List Str)) :
    (insertSorted p l).Perm (p :: l) := by
  induction l with
  | nil => exact List.Perm.refl _
  | cons q qs ih =>
    by_cases hq : strLt q.1 p.1
    · simp only [insertSorted, hq, if_true]
      exact (ih.cons q).trans (List.Perm.swap p q qs)
    · simp [insertSorted, hq]

theorem sortHeaders_perm (l : List (Str × List Str)) :
    (sortHeaders l).Perm l := by
  induction l with
  | nil => exact List.Perm.refl _
  | cons p ps ih =>
    exact (insertSorted_perm p (sortHeaders ps)).trans (ih.cons p)

theorem readRequestLines_write_shape (r : SimpleRequest) (uaL : List Str)
    (uaE gs : List (Str × List Str))
    (hm : ' ' ∉ r.method) (hu : ' ' ∉ r.uri) (hh : trimLeftWS r.host = r.host)
    (hcase : (uaL = [] ∧ uaE = []) ∨
      ∃ v, trimLeftWS v = v ∧ uaL = [uaKey ++ strOf ": " ++ v] ∧
        uaE = [(uaKey, [v])])
    (hgs_wf : ∀ p ∈ gs, WFGroup p)
    (hgs_nodup : (gs.map Prod.fst).Nodup)
    (hgs_ne_host : ∀ p ∈ gs, p.1 ≠ hostKey)
    (hgs_ne_ua : ∀ p ∈ gs, p.1 ≠ uaKey) :
    readRequestLines
        ((r.method ++ ' ' :: (r.uri ++ ' ' :: strOf "HTTP/1.1")) ::
          (hostKey ++ strOf ": " ++ r.host) ::
          (uaL ++ ((gs.flatMap fun p => p.2.map fun v => p.1 ++ strOf ": " ++ v) ++ [[]]))) =
      some { method := r.method, uri := r.uri, proto := strOf "HTTP/1.1",
             host := r.host, header := uaE ++ gs } := by
  have hc1 : cutChar ' ' (r.method ++ ' ' :: (r.uri ++ ' ' :: strOf "HTTP/1.1")) =
      some (r.method, r.uri ++ ' ' :: strOf "HTTP/1.1") :=
    cutChar_append_cons _ _ _ hm
  have hc2 : cutChar ' ' (r.uri ++ ' ' :: strOf "HTTP/1.1") =
      some (r.uri, strOf "HTTP/1.1") :=
    cutChar_append_cons _ _ _ hu
  have hproto : protoOk (strOf "HTTP/1.1") = true := by decide
  have hdelg : headerDel gs hostKey = gs := by
    apply headerDel_not_mem
    intro hmem
    obtain ⟨p, hp, hpe⟩ := List.mem_map.mp hmem
    exact hgs_ne_host p hp hpe
  rcases hcase with ⟨hL, hE⟩ | ⟨v, hvv, hL, hE⟩
  · subst hL; subst hE
    have hd : ∀ p ∈ gs, p.1 ∉ ([(hostKey, [r.host])].map Prod.fst) := by
      intro p hp hmem
      simp only [List.map_cons, List.map_nil, List.mem_cons,
        List.not_mem_nil, or_false] at hmem
      exact hgs_ne_host p hp hmem
    have hblock : readHeaderBlock
        ((hostKey ++ strOf ": " ++ r.host) ::
          ((gs.flatMap fun p => p.2.map fun v => p.1 ++ strOf ": " ++ v) ++ [[]])) [] =
        some ((hostKey, [r.host]) :: gs) := by
      rw [readHeaderBlock_header_line hostKey r.host _ _ (by decide) (by decide)
          (by decide) hh,
        show headerAdd [] hostKey r.host = [(hostKey, [r.host])] from rfl,
        readHeaderBlock_groups gs [(hostKey, [r.host])] hgs_wf hd hgs_nodup]
      rfl
    simp only [readRequestLines, hc1, hc2, hproto, if_true, List.nil_append, hblock]
    simp only [headerGetFirst, if_pos rfl, headerDel, hdelg]
    simp
  · subst hL; subst hE
    have huaFresh : uaKey ∉ ([(hostKey, [r.host])].map Prod.fst) := by
      simp only [List.map_cons, List.map_nil, List.mem_cons, List.not_mem_nil, or_false]
      decide
    have hd : ∀ p ∈ gs, p.1 ∉ ([(hostKey, [r.host]), (uaKey, [v])].map Prod.fst) := by
      intro p hp hmem
      simp only [List.map_cons, List.map_nil, List.mem_cons,
        List.not_mem_nil, or_false] at hmem
      rcases hmem with hmem | hmem
      · exact hgs_ne_host p hp hmem
      · exact hgs_ne_ua p hp hmem
    have hblock : readHeaderBlock
        ((hostKey ++ strOf ": " ++ r.host) ::
          ((uaKey ++ strOf ": " ++ v) ::
            ((gs.flatMap fun p => p.2.map fun w => p.1 ++ strOf ": " ++ w) ++ [[]]))) [] =
        some ((hostKey, [r.host]) :: (uaKey, [v]) :: gs) := by
      have haddua : headerAdd [(hostKey, [r.host])] uaKey v =
          [(hostKey, [r.host]), (uaKey, [v])] := by
        rw [headerAdd_fresh _ _ _ huaFresh]
        rfl
      rw [readHeaderBlock_header_line hostKey r.host _ _ (by decide) (by decide)
          (by decide) hh,
        show headerAdd [] hostKey r.host = [(hostKey, [r.host])] from rfl,
        readHeaderBlock_header_line uaKey v _ _ (by decide) (by decide)
          (by decide) hvv,
        haddua,
        readHeaderBlock_groups gs [(hostKey, [r.host]), (uaKey, [v])] hgs_wf hd
          hgs_nodup]
      rfl
    have hdel2 : headerDel ((uaKey, [v]) :: gs) hostKey = (uaKey, [v]) :: gs := by
      apply headerDel_not_mem
      intro hmem
      simp only [List.map_cons, List.mem_cons] at hmem
      rcases hmem with hmem | hmem
      · exact absurd hmem (by decide)
      · obtain ⟨p, hp, hpe⟩ := List.mem_map.mp hmem
        exact hgs_ne_host p hp hpe
    simp only [readRequestLines, hc1, hc2, hproto, if_true, List.singleton_append,
      List.cons_append, List.nil_append, hblock]
    simp only [headerGetFirst, if_pos rfl, headerDel, hdel2]
    have hne : ¬ (uaKey = hostKey) := by decide
    simp [hne, hdelg]

/-- C8 counterexample: the claim says the bytes the relay writes upstream
are verbatim equal to the bytes the client sent.  For the client message
`GET / HTTP/1.0` + `Host: example.com` the relay writes the
re-serialization of the parsed request — version rewritten to `HTTP/1.1`
and a default `User-Agent` added — which differs from the client's
bytes. -/
theorem relay_verbatim_counterexample :
    relayUpstreamLines [strOf "GET / HTTP/1.0", strOf "Host: example.com", strOf ""] =
        some [strOf "GET / HTTP/1.1", strOf "Host: example.com",
          strOf "User-Agent: Go-http-client/1.1", strOf ""] ∧
      relayUpstreamLines [strOf "GET / HTTP/1.0", strOf "Host: example.com", strOf ""] ≠
        some [strOf "GET / HTTP/1.0", strOf "Host: example.com", strOf ""] := by
  exact ⟨by decide, by decide⟩

/-- C8 amended: for every complete client request of the modelled fragment
parsed off a plaintext tunnel, the lines the relay writes upstream are the
canonical `Request.Write` re-serialization of the parsed request — not in
general the client's verbatim bytes — and this re-serialization is
lossless up to normalization: parsing the written message back yields the
same method, target and host, the version fixed to `HTTP/1.1`, and the
same header content in its canonical written arrangement (a materialised
`User-Agent` entry followed by the remaining headers sorted by name). -/
theorem relay_reserialization_amended (L : List Str) (r : SimpleRequest)
    (hparse : readRequestLines L = some r) (hwf : WFRequest r) :
    relayUpstreamLines L = some (writeRequestLines r) ∧
      readRequestLines (writeRequestLines r) = some (normalizeRequest r) := by
  obtain ⟨hm, hu, hh, hps, hnd, hnh, hncl, hnte, hntr⟩ := hwf
  refine ⟨by simp [relayUpstreamLines, hparse], ?_⟩
  have hgs_perm := sortHeaders_perm (headerFilterForWrite r.header)
  have hgs_mem : ∀ p ∈ sortHeaders (headerFilterForWrite r.header), p ∈ r.header :=
    fun p hp => (List.mem_filter.mp (hgs_perm.mem_iff.mp hp)).1
  have hgs_excl : ∀ p ∈ sortHeaders (headerFilterForWrite r.header),
      p.1 ∉ reqWriteExclude := by
    intro p hp hmemx
    have hf := (List.mem_filter.mp (hgs_perm.mem_iff.mp hp)).2
    have hc : reqWriteExclude.contains p.1 = true := List.elem_iff.mpr hmemx
    rw [hc] at hf
    simp at hf
  have hgs_wf : ∀ p ∈ sortHeaders (headerFilterForWrite r.header), WFGroup p :=
    fun p hp => hps p (hgs_mem p hp)
  have hgs_nodup :
      ((sortHeaders (headerFilterForWrite r.header)).map Prod.fst).Nodup :=
    ((hgs_perm.map Prod.fst).nodup_iff).mpr
      (hnd.sublist ((List.filter_sublist r.header).map Prod.fst))
  have hgs_ne_host : ∀ p ∈ sortHeaders (headerFilterForWrite r.header),
      p.1 ≠ hostKey := by
    intro p hp he
    exact hgs_excl p hp (by rw [he]; decide)
  have hgs_ne_ua : ∀ p ∈ sortHeaders (headerFilterForWrite r.header),
      p.1 ≠ uaKey := by
    intro p hp he
    exact hgs_excl p hp (by rw [he]; decide)
  have hline1 : r.method ++ strOf " " ++ r.uri ++ strOf " HTTP/1.1" =
      r.method ++ ' ' :: (r.uri ++ ' ' :: strOf "HTTP/1.1") := by
    rw [show strOf " " = [' '] from rfl,
      show strOf " HTTP/1.1" = ' ' :: strOf "HTTP/1.1" from rfl]
    simp [List.append_assoc]
  cases hua : headerEntry r.header uaKey with
  | none =>
    have hwr : writeRequestLines r =
        (r.method ++ ' ' :: (r.uri ++ ' ' :: strOf "HTTP/1.1")) ::
          (hostKey ++ strOf ": " ++ r.host) ::
          ([uaKey ++ strOf ": " ++ defaultUserAgent] ++
            (((sortHeaders (headerFilterForWrite r.header)).flatMap fun p =>
                p.2.map fun v => p.1 ++ strOf ": " ++ v) ++ [[]])) := by
      unfold writeRequestLines headerLinesOf uaLines
      rw [hline1, hua]
      simp [List.append_assoc]
    have hnorm : normalizeRequest r =
        { method := r.method, uri := r.uri, proto := strOf "HTTP/1.1",
          host := r.host,
          header := [(uaKey, [defaultUserAgent])] ++
            sortHeaders (headerFilterForWrite r.header) } := by
      unfold normalizeRequest normalizedHeader
      rw [hua]
    rw [hwr, hnorm]
    exact readRequestLines_write_shape r _ _ _ hm hu hh
      (Or.inr ⟨defaultUserAgent, by decide, rfl, rfl⟩)
      hgs_wf hgs_nodup hgs_ne_host hgs_ne_ua
  | some vs =>
    have hmemua := headerEntry_mem _ _ _ hua
    obtain ⟨huaK, huaC, huaCan, huaNe, huaV⟩ := hps _ hmemua
    cases vs with
    | nil => exact absurd rfl huaNe
    | cons v0 vt =>
      by_cases h0 : v0 = []
      · have hwr : writeRequestLines r =
            (r.method ++ ' ' :: (r.uri ++ ' ' :: strOf "HTTP/1.1")) ::
              (hostKey ++ strOf ": " ++ r.host) ::
              ([] ++
                (((sortHeaders (headerFilterForWrite r.header)).flatMap fun p =>
                    p.2.map fun v => p.1 ++ strOf ": " ++ v) ++ [[]])) := by
          unfold writeRequestLines headerLinesOf uaLines
          rw [hline1, hua]
          simp [h0, List.append_assoc]
        have hnorm : normalizeRequest r =
            { method := r.method, uri := r.uri, proto := strOf "HTTP/1.1",
              host := r.host,
              header := [] ++ sortHeaders (headerFilterForWrite r.header) } := by
          unfold normalizeRequest normalizedHeader
          rw [hua]
          simp [h0]
        rw [hwr, hnorm]
        exact readRequestLines_write_shape r _ _ _ hm hu hh
          (Or.inl ⟨rfl, rfl⟩) hgs_wf hgs_nodup hgs_ne_host hgs_ne_ua
      · have hv0 : trimLeftWS v0 = v0 := huaV v0 (List.mem_cons_self _ _)
        have hwr : writeRequestLines r =
            (r.method ++ ' ' :: (r.uri ++ ' ' :: strOf "HTTP/1.1")) ::
              (hostKey ++ strOf ": " ++ r.host) ::
              ([uaKey ++ strOf ": " ++ v0] ++
                (((sortHeaders (headerFilterForWrite r.header)).flatMap fun p =>
                    p.2.map fun v => p.1 ++ strOf ": " ++ v) ++ [[]])) := by
          unfold writeRequestLines headerLinesOf uaLines
          rw [hline1, hua]
          simp [h0, List.append_assoc]
        have hnorm : normalizeRequest r =
            { method := r.method, uri := r.uri, proto := strOf "HTTP/1.1",
              host := r.host,
              header := [(uaKey, [v0])] ++
                sortHeaders (headerFilterForWrite r.header) } := by
          unfold normalizeRequest normalizedHeader
          rw [hua]
          simp [h0]
        rw [hwr, hnorm]
        exact readRequestLines_write_shape r _ _ _ hm hu hh
          (Or.inr ⟨v0, hv0, rfl, rfl⟩) hgs_wf hgs_nodup hgs_ne_host hgs_ne_ua

/-- Witness for C8's amended claim at a concrete parsed request. -/
theorem relay_reserialization_amended_witness :
    relayUpstreamLines
        [strOf "GET /p HTTP/1.1", strOf "Host: h.example",
          strOf "Accept: text/html", strOf ""] =
        some (writeRequestLines
          { method := strOf "GET", uri := strOf "/p", proto := strOf "HTTP/1.1",
            host := strOf "h.example",
            header := [(strOf "Accept", [strOf "text/html"])] }) ∧
      readRequestLines (writeRequestLines
          { method := strOf "GET", uri := strOf "/p", proto := strOf "HTTP/1.1",
            host := strOf "h.example",
            header := [(strOf "Accept", [strOf "text/html"])] }) =
        some (normalizeRequest
          { method := strOf "GET", uri := strOf "/p", proto := strOf "HTTP/1.1",
            host := strOf "h.example",
            header := [(strOf "Accept", [strOf "text/html"])] }) :=
  relay_reserialization_amended
    [strOf "GET /p HTTP/1.1", strOf "Host: h.example",
      strOf "Accept: text/html", strOf ""]
    { method := strOf "GET", uri := strOf "/p", proto := strOf "HTTP/1.1",
      host := strOf "h.example",
      header := [(strOf "Accept", [strOf "text/html"])] }
    (by decide) (by decide)
